import Mathlib

/-!
Verification development for the `nano-borndigital` repository
(`meemoo/helpers.py`): a shallow embedding of the event-field helpers and
of the `SidecarBuilder` class (MediaHaven XML sidecar construction and
serialization), together with theorems about them.

Python dictionaries are embedded as association lists in insertion order
(Python `dict` preserves insertion order and has unique keys); Python
exceptions are embedded as an explicit error type returned through
`Except`.  The `lxml.etree` calls used by the source (`Element`,
`SubElement`, `ElementTree`, `tostring`) are embedded as a small XML tree
datatype plus a serializer reproducing lxml's output format (single-quoted
XML declaration, double-quoted attributes, namespace declarations before
attributes, two-space pretty-print indentation).
-/

namespace NanoBD

/-- Constant `BASE_DOMAIN = 'viaa.be'` from `meemoo/helpers.py`. -/
def BASE_DOMAIN : String := "viaa.be"

/-- Python-dict lookup on an association list: `d[k]` / `k in d.keys()`.
Returns the binding of `k` when present (`dict` keys are unique). -/
def lookupDict (d : List (String × String)) (k : String) : Option String :=
  (d.find? (fun p => p.1 == k)).map (fun p => p.2)

/-- The Python exceptions that the embedded code can raise, under the
spec's abstract error taxonomy:
* `schemaViolation k`: the `AssertionError` of `check_metadata_dict`
  (`assert k in self.ALLOWED_NODES`), carrying the offending key;
* `malformedMetadata`: the `TypeError`/`AttributeError` raised during tree
  construction when a category value is not a dict or a field value is not
  a string;
* `usageError`: the `TypeError` raised by `etree.tostring(None, ...)` when
  serialization is requested while `self.sidecar` is still `None`;
* `unknownField n`: the `AssertionError` of `get_from_event`
  (`assert name in keys`);
* `keyError`: a `KeyError`/`IndexError` from a nested event lookup;
* `unicodeDecodeError`: a failing `bytes.decode('utf-8')`. -/
inductive PyError where
  | schemaViolation (key : String)
  | malformedMetadata
  | usageError
  | unknownField (name : String)
  | keyError
  | unicodeDecodeError
deriving Repr, DecidableEq

/-- Constant `POSSIBLE_KEYS` of `try_to_find_md5`. -/
def POSSIBLE_KEYS : List String := ["x-md5sum-meta", "md5sum", "x-amz-meta-md5sum"]

/-- The `for key in POSSIBLE_KEYS` loop body of `try_to_find_md5`:
return `object_metadata[key]` for the first key present, else fall through. -/
def try_to_find_md5_go (object_metadata : List (String × String)) :
    List String → String
  | [] => ""
  | k :: ks =>
    match lookupDict object_metadata k with
    | some v => v
    | none => try_to_find_md5_go object_metadata ks

/-- Function `try_to_find_md5(object_metadata)` from `meemoo/helpers.py`: try the
candidate md5 keys in order, returning the first value found, `""` if none. -/
def try_to_find_md5 (object_metadata : List (String × String)) : String :=
  try_to_find_md5_go object_metadata POSSIBLE_KEYS

/-- Model of Python's `str.lower()` on one character, restricted to the
ASCII range, which is all the source applies it to (`Char.toLower` in Lean
core has the same ASCII-only behaviour). -/
def pyLowerChar (c : Char) : Char :=
  if 65 ≤ c.toNat ∧ c.toNat ≤ 90 then Char.ofNat (c.toNat + 32) else c

/-- Model of Python's `str.lower()` (ASCII range). -/
def pyLower (s : String) : String := String.mk (s.data.map pyLowerChar)

/-- The `event['Records'][0]['s3']` subtree of an S3 event, holding exactly
the entries `get_from_event` reads: `['bucket']['name']`,
`['bucket']['metadata']` (a dict, read at key `'tenant'`),
`['domain']['name']`, `['object']['key']`, `['object']['metadata']`. -/
structure S3Sub where
  bucketName : String
  bucketMetadata : List (String × String)
  domainName : String
  objectKey : String
  objectMetadata : List (String × String)
deriving Repr, DecidableEq

/-- An S3 event: `event['Records']` is a list of records, each holding an
`'s3'` subtree. `get_from_event` reads `event['Records'][0]['s3']`. -/
structure S3Event where
  records : List S3Sub
deriving Repr, DecidableEq

/-- The local `keys` list of `get_from_event`. -/
def eventKeys : List String := ["bucket", "object_key", "host", "tenant", "md5"]

/-- Function `get_from_event(event, name)` from `meemoo/helpers.py`.  The result is
`Except`-valued: `.error (.unknownField _)` models the failing
`assert name in keys`, `.error .keyError` a failing nested lookup, and the
value is an `Option String` because the Python function implicitly returns
`None` if the `elif` chain were exhausted (unreachable for asserted names). -/
def get_from_event (event : S3Event) (name : String) :
    Except PyError (Option String) :=
  let name := pyLower name
  if name ∈ eventKeys then
    match event.records.head? with
    | none => .error .keyError
    | some s3_sub =>
      if name == "bucket" then .ok (some s3_sub.bucketName)
      else if name == "object_key" then .ok (some s3_sub.objectKey)
      else if name == "host" then
        .ok (some (String.intercalate "." [s3_sub.bucketName, s3_sub.domainName, BASE_DOMAIN]))
      else if name == "tenant" then
        match lookupDict s3_sub.bucketMetadata "tenant" with
        | some t => .ok (some t)
        | none => .error .keyError
      else if name == "md5" then
        .ok (some (try_to_find_md5 s3_sub.objectMetadata))
      else .ok none
  else .error (.unknownField name)

/-! ### The lxml element-tree model -/

/-- A qualified XML name as lxml sees it: `"{uri}local"` strings produce a
namespace-qualified name (`ns = some uri`), plain strings an unqualified
one (`ns = none`). -/
structure QName where
  ns : Option String
  localName : String
deriving Repr, DecidableEq

/-- An lxml element: tag, plain attributes (in order), the `nsmap`
namespace declarations attached at creation, optional text content, and
the list of child elements (in document order). -/
inductive XElem where
  | mk (tag : QName) (attrs : List (String × String))
       (nsmap : List (String × String)) (text : Option String)
       (children : List XElem)
deriving Repr

/-- The tag of an element. -/
def XElem.tag : XElem → QName
  | .mk t _ _ _ _ => t

/-- The attributes of an element. -/
def XElem.attrs : XElem → List (String × String)
  | .mk _ a _ _ _ => a

/-- The namespace declarations attached to an element. -/
def XElem.nsmap : XElem → List (String × String)
  | .mk _ _ n _ _ => n

/-- The text content of an element. -/
def XElem.text : XElem → Option String
  | .mk _ _ _ t _ => t

/-- The child elements of an element. -/
def XElem.children : XElem → List XElem
  | .mk _ _ _ _ c => c

/-- Document tree `etree.ElementTree(root)`: a wrapper around a root element. -/
structure ElementTree where
  root : XElem
deriving Repr

/-! ### The SidecarBuilder data model

A Python metadata dict value can fail the shape the builder expects: a
category value may not be a dict (then `.items()` raises), and a field
value may not be a string (then assigning `.text` raises).  Both shapes
are represented so that the error paths of `build` are part of the model. -/

/-- A field value in the metadata dict: a Python `str`, or any other
Python object (whose assignment to `.text` raises a `TypeError`). -/
inductive FieldVal where
  | s (v : String)
  | bad
deriving Repr, DecidableEq

/-- A category value in the metadata dict: a Python `dict` of fields (in
insertion order), or any other object (on which `.items()` raises). -/
inductive CatVal where
  | m (fields : List (String × FieldVal))
  | bad
deriving Repr, DecidableEq

/-- A metadata dict: top-level category names to category values, in
insertion order (Python `dict` preserves it; keys are unique). -/
abbrev MetadataDict := List (String × CatVal)

/-- Constant `SidecarBuilder.ALLOWED_NODES`. -/
def ALLOWED_NODES : List String := ["Dynamic", "Technical"]

/-- Constant `SidecarBuilder.XML_ENCODING`. -/
def XML_ENCODING : String := "UTF-8"

/-- Constant `SidecarBuilder.MHS_VERSION`. -/
def MHS_VERSION : String := "19.4"

/-- The `"mhs"` namespace URI of `SidecarBuilder.MH_NAMESPACES`. -/
def mhsURI : String :=
  "https://zeticon.mediahaven.com/metadata/" ++ MHS_VERSION ++ "/mhs/"

/-- The `"mh"` namespace URI of `SidecarBuilder.MH_NAMESPACES`. -/
def mhURI : String :=
  "https://zeticon.mediahaven.com/metadata/" ++ MHS_VERSION ++ "/mh/"

/-- Constant `SidecarBuilder.MH_NAMESPACES` (a dict, in insertion order). -/
def MH_NAMESPACES : List (String × String) := [("mhs", mhsURI), ("mh", mhURI)]

/-- The state of a `SidecarBuilder` instance: `self.sidecar`, which
`__init__` sets to `None` and a successful `build` sets to the new
document tree.  (`self.ctx` is never read by the builder and is omitted.) -/
structure SidecarBuilder where
  sidecar : Option ElementTree
deriving Repr

/-- Constructor `SidecarBuilder.__init__`: `self.sidecar = None`. -/
def SidecarBuilder.init : SidecarBuilder := ⟨none⟩

/-- Method `SidecarBuilder.check_metadata_dict`:
`for k in metadata_dict: assert k in self.ALLOWED_NODES, ...` — raises a
`schemaViolation` naming the first key outside `ALLOWED_NODES`, before the
caller creates any tree node. -/
def check_metadata_dict : MetadataDict → Except PyError Unit
  | [] => .ok ()
  | (k, _) :: rest =>
    if k ∈ ALLOWED_NODES then check_metadata_dict rest
    else .error (.schemaViolation k)

/-- The body of the inner loop of `SidecarBuilder.build` for one field
`(sub, val)` of category `top`: two separate `if` statements append an
`mh`-qualified subelement when `top == 'Technical'` and an unqualified
subelement when `top == 'Dynamic'`, each with `.text = val`; assigning a
non-string `val` to `.text` raises a `TypeError`. -/
def buildFields (top : String) :
    List (String × FieldVal) → Except PyError (List XElem)
  | [] => .ok []
  | (sub, val) :: rest =>
    match val with
    | .bad => .error .malformedMetadata
    | .s v => do
      let here :=
        (if top == "Technical" then
          [XElem.mk ⟨some mhURI, sub⟩ [] [] (some v) []] else [])
        ++
        (if top == "Dynamic" then
          [XElem.mk ⟨none, sub⟩ [] [] (some v) []] else [])
      let tail ← buildFields top rest
      .ok (here ++ tail)

/-- The body of the outer loop of `SidecarBuilder.build` for one category
`(top, cv)`: create the `mhs`-qualified category node, then iterate over
`metadata_dict[top].items()` — which raises when `cv` is not a dict. -/
def buildCategory (top : String) (cv : CatVal) : Except PyError XElem :=
  match cv with
  | .bad => .error .malformedMetadata
  | .m fields => do
    let children ← buildFields top fields
    .ok (XElem.mk ⟨some mhsURI, top⟩ [] [] none children)

/-- The outer `for top in metadata_dict` loop of `SidecarBuilder.build`. -/
def buildCategories : MetadataDict → Except PyError (List XElem)
  | [] => .ok []
  | (top, cv) :: rest => do
    let c ← buildCategory top cv
    let cs ← buildCategories rest
    .ok (c :: cs)

/-- The root element `SidecarBuilder.build` creates:
`etree.Element("{mhs}Sidecar", version=MHS_VERSION, nsmap=MH_NAMESPACES)`
with the given children appended. -/
def sidecarRoot (children : List XElem) : XElem :=
  XElem.mk ⟨some mhsURI, "Sidecar"⟩ [("version", MHS_VERSION)]
    MH_NAMESPACES none children

/-- Method `SidecarBuilder.build(metadata_dict)`.  Returns the builder state
after the call together with the call's outcome.  In the source, `root`
and `doc` are locals: `self.sidecar = doc` is the final statement, so on
any raised exception (validation or construction) the instance state is
the untouched input state. -/
def SidecarBuilder.build (b : SidecarBuilder) (metadata_dict : MetadataDict) :
    SidecarBuilder × Except PyError Unit :=
  match check_metadata_dict metadata_dict with
  | .error e => (b, .error e)
  | .ok _ =>
    match buildCategories metadata_dict with
    | .error e => (b, .error e)
    | .ok children =>
      ({ b with sidecar := some ⟨sidecarRoot children⟩ }, .ok ())

/-! ### The lxml serializer model (`etree.tostring`)

The serializer reproduces lxml's output text: an XML declaration written
by lxml itself with single quotes (`<?xml version='1.0' encoding='…'?>`
followed by a newline), namespace declarations before plain attributes on
the element that carries the `nsmap`, double-quoted attribute values,
standard text/attribute escaping, self-closing empty elements, and
two-space-per-level indentation with `pretty_print=True`. -/

/-- Escape one character of element text content as libxml2 does
(`&`, `<`, `>`, and a literal carriage return). -/
def escTextChar (c : Char) : String :=
  if c = '&' then "&amp;"
  else if c = '<' then "&lt;"
  else if c = '>' then "&gt;"
  else if c = '\r' then "&#13;"
  else Char.toString c

/-- Escape element text content. -/
def escText (s : String) : String := String.join (s.data.map escTextChar)

/-- Escape one character of an attribute value as libxml2 does. -/
def escAttrChar (c : Char) : String :=
  if c = '&' then "&amp;"
  else if c = '<' then "&lt;"
  else if c = '>' then "&gt;"
  else if c = '"' then "&quot;"
  else if c = '\n' then "&#10;"
  else if c = '\t' then "&#9;"
  else if c = '\r' then "&#13;"
  else Char.toString c

/-- Escape an attribute value. -/
def escAttr (s : String) : String := String.join (s.data.map escAttrChar)

/-- Resolve a namespace URI to its declared abbreviation in the document's
`nsmap` (our documents declare every namespace they use at the root). -/
def nsAbbrevFor (nsmap : List (String × String)) (uri : String) : Option String :=
  (nsmap.find? (fun p => p.2 == uri)).map (fun p => p.1)

/-- Render a qualified name using the document's `nsmap`:
`mhs:Sidecar`, `mh:md5`, or a bare local name when unqualified. -/
def qnameRendered (nsmap : List (String × String)) (t : QName) : String :=
  match t.ns with
  | none => t.localName
  | some uri =>
    match nsAbbrevFor nsmap uri with
    | some p => p ++ ":" ++ t.localName
    | none => t.localName

/-- Render the `xmlns:p="uri"` declarations of an element (before its
plain attributes, as libxml2 writes them). -/
def renderNsDecls (ns : List (String × String)) : String :=
  String.join (ns.map (fun p => " xmlns:" ++ p.1 ++ "=\"" ++ escAttr p.2 ++ "\""))

/-- Render the plain attributes of an element, double-quoted. -/
def renderAttrs (attrs : List (String × String)) : String :=
  String.join (attrs.map (fun p => " " ++ p.1 ++ "=\"" ++ escAttr p.2 ++ "\""))

/-- Indentation written by `pretty_print=True`: two spaces per level. -/
def indentOf (depth : Nat) : String :=
  String.mk (List.replicate (2 * depth) ' ')

mutual

/-- Render one element at the given depth.  Elements with neither text nor
children are self-closing; with `pretty_print=True` an element whose
content is child elements (no text) puts each child on its own indented
line. -/
def renderElem (nsmap : List (String × String)) (pretty : Bool) (depth : Nat) :
    XElem → String
  | .mk tag attrs ns txt children =>
    let name := qnameRendered nsmap tag
    let head := "<" ++ name ++ renderNsDecls ns ++ renderAttrs attrs
    match txt, children with
    | none, [] => head ++ "/>"
    | some t, [] => head ++ ">" ++ escText t ++ "</" ++ name ++ ">"
    | none, c :: cs =>
      if pretty then
        head ++ ">\n" ++ renderList nsmap pretty (depth + 1) (c :: cs)
          ++ indentOf depth ++ "</" ++ name ++ ">"
      else
        head ++ ">" ++ renderList nsmap pretty (depth + 1) (c :: cs)
          ++ "</" ++ name ++ ">"
    | some t, c :: cs =>
      head ++ ">" ++ escText t
        ++ renderList nsmap false (depth + 1) (c :: cs) ++ "</" ++ name ++ ">"

/-- Render a list of sibling elements at the given depth. -/
def renderList (nsmap : List (String × String)) (pretty : Bool) (depth : Nat) :
    List XElem → String
  | [] => ""
  | e :: es =>
    (if pretty then indentOf depth else "")
      ++ renderElem nsmap pretty depth e
      ++ (if pretty then "\n" else "")
      ++ renderList nsmap pretty depth es

end

/-- The XML declaration lxml writes for `xml_declaration=True` with the
given encoding name: single-quoted, followed by a newline. -/
def xmlDeclFor (enc : String) : String :=
  "<?xml version='1.0' encoding='" ++ enc ++ "'?>\n"

/-- Model of
`etree.tostring(tree, pretty_print=pretty, encoding='UTF-8', xml_declaration=True)`
as the text it encodes: declaration, the root element (resolving
namespace abbreviations through the root's `nsmap`), and — with
`pretty_print=True` — a trailing newline. -/
def tostringText (t : ElementTree) (pretty : Bool) : String :=
  xmlDeclFor XML_ENCODING
    ++ renderElem t.root.nsmap pretty 0 t.root
    ++ (if pretty then "\n" else "")

/-! ### UTF-8 encoding and decoding

Bytes are embedded as `Nat` values below 256. -/

/-- UTF-8 encoding of one character (standard 1–4 byte forms). -/
def utf8EncodeChar (c : Char) : List Nat :=
  let n := c.toNat
  if n < 0x80 then [n]
  else if n < 0x800 then
    [0xC0 + n / 64, 0x80 + n % 64]
  else if n < 0x10000 then
    [0xE0 + n / 4096, 0x80 + n / 64 % 64, 0x80 + n % 64]
  else
    [0xF0 + n / 262144, 0x80 + n / 4096 % 64, 0x80 + n / 64 % 64, 0x80 + n % 64]

/-- UTF-8 encoding of a character sequence. -/
def utf8Encode (cs : List Char) : List Nat :=
  (cs.map utf8EncodeChar).flatten

/-- UTF-8 decoding with a step budget, one unit per decoded character
(recursion on the budget keeps the definition structurally recursive; a
budget of the byte count always suffices, since every decoded character
consumes at least one byte).  The decoder is strict, rejecting truncated
sequences, stray continuation bytes, overlong forms, surrogates and
out-of-range code points. -/
def utf8DecodeAux : Nat → List Nat → Option (List Char)
  | _, [] => some []
  | 0, _ :: _ => none
  | fuel + 1, b0 :: bs =>
    if b0 < 0x80 then
      (utf8DecodeAux fuel bs).map (fun cs => Char.ofNat b0 :: cs)
    else if b0 < 0xC2 then none
    else if b0 < 0xE0 then
      match bs with
      | b1 :: bs' =>
        if 0x80 ≤ b1 ∧ b1 < 0xC0 then
          (utf8DecodeAux fuel bs').map
            (fun cs => Char.ofNat ((b0 - 0xC0) * 64 + (b1 - 0x80)) :: cs)
        else none
      | [] => none
    else if b0 < 0xF0 then
      match bs with
      | b1 :: b2 :: bs' =>
        if (0x80 ≤ b1 ∧ b1 < 0xC0) ∧ (0x80 ≤ b2 ∧ b2 < 0xC0) then
          let n := (b0 - 0xE0) * 4096 + (b1 - 0x80) * 64 + (b2 - 0x80)
          if n < 0x800 ∨ (0xD800 ≤ n ∧ n < 0xE000) then none
          else (utf8DecodeAux fuel bs').map (fun cs => Char.ofNat n :: cs)
        else none
      | _ => none
    else if b0 < 0xF5 then
      match bs with
      | b1 :: b2 :: b3 :: bs' =>
        if ((0x80 ≤ b1 ∧ b1 < 0xC0) ∧ (0x80 ≤ b2 ∧ b2 < 0xC0))
            ∧ (0x80 ≤ b3 ∧ b3 < 0xC0) then
          let n := (b0 - 0xF0) * 262144 + (b1 - 0x80) * 4096
                    + (b2 - 0x80) * 64 + (b3 - 0x80)
          if n < 0x10000 ∨ 0x110000 ≤ n then none
          else (utf8DecodeAux fuel bs').map (fun cs => Char.ofNat n :: cs)
        else none
      | _ => none
    else none

/-- UTF-8 decoding (model of `bytes.decode('utf-8')`). -/
def utf8Decode (l : List Nat) : Option (List Char) :=
  utf8DecodeAux l.length l

/-- Method `SidecarBuilder.to_bytes(pretty=False)`:
`etree.tostring(self.sidecar, pretty_print=pretty, encoding='UTF-8',
xml_declaration=True)`.  With `self.sidecar` still `None`, lxml raises a
`TypeError` (the spec's usage error); otherwise the result is the UTF-8
byte encoding of the serialized text. -/
def SidecarBuilder.to_bytes (b : SidecarBuilder) (pretty : Bool) :
    Except PyError (List Nat) :=
  match b.sidecar with
  | none => .error .usageError
  | some t => .ok (utf8Encode (tostringText t pretty).data)

/-- Method `SidecarBuilder.to_string(pretty=False)`: the same
`etree.tostring` call as `to_bytes`, followed by `.decode('utf-8')`. -/
def SidecarBuilder.to_string (b : SidecarBuilder) (pretty : Bool) :
    Except PyError String :=
  match b.sidecar with
  | none => .error .usageError
  | some t =>
    match utf8Decode (utf8Encode (tostringText t pretty).data) with
    | some cs => .ok (String.mk cs)
    | none => .error .unicodeDecodeError

/-! ### Shape predicates and the expected tree shape

`wfCat`/`wfDict` say a metadata dict has the shape `build` can process to
completion (dict-valued categories, string-valued fields); `validKeys`
says every top-level key is in `ALLOWED_NODES`.  `catElemOf` is the
category element that `build` produces for one dict entry — the theorems
below prove `build` equals this shape. -/

/-- Decide that a category value is a dict of string-valued fields. -/
def wfCat : CatVal → Bool
  | .m fields => fields.all (fun q => match q.2 with | .s _ => true | .bad => false)
  | .bad => false

/-- Decide that every category value in the dict is well-shaped. -/
def wfDict (m : MetadataDict) : Bool := m.all (fun p => wfCat p.2)

/-- Decide that every top-level key is an allowed category name. -/
def validKeys (m : MetadataDict) : Bool :=
  m.all (fun p => ALLOWED_NODES.contains p.1)

/-- The text a field value contributes (`some v` for a string). -/
def fieldTextOf : FieldVal → Option String
  | .s v => some v
  | .bad => none

/-- The subelements the inner loop of `build` appends for one field of
category `top`: one `mh`-qualified element for `Technical`, one
unqualified element for `Dynamic` (and none for any other name). -/
def fieldElemsOf (top : String) (q : String × FieldVal) : List XElem :=
  (if top == "Technical" then
    [XElem.mk ⟨some mhURI, q.1⟩ [] [] (fieldTextOf q.2) []] else [])
  ++
  (if top == "Dynamic" then
    [XElem.mk ⟨none, q.1⟩ [] [] (fieldTextOf q.2) []] else [])

/-- The children of the category element for entry `(top, cv)`. -/
def catChildren (top : String) : CatVal → List XElem
  | .m fields => fields.flatMap (fieldElemsOf top)
  | .bad => []

/-- The category element `build` produces for one dict entry. -/
def catElemOf (p : String × CatVal) : XElem :=
  XElem.mk ⟨some mhsURI, p.1⟩ [] [] none (catChildren p.1 p.2)

/-! ### Concrete inputs used by the witnesses -/

/-- A valid, well-shaped metadata dict with one field per category. -/
def mEx : MetadataDict :=
  [("Technical", CatVal.m [("md5", FieldVal.s "abc123")]),
   ("Dynamic", CatVal.m [("title", FieldVal.s "Foo")])]

/-- A metadata dict whose first key is not an allowed category. -/
def mBadKey : MetadataDict := [("Descriptive", CatVal.m [])]

/-- A metadata dict that passes validation but has a malformed second
category value, so `build` fails partway through tree construction. -/
def mMal : MetadataDict :=
  [("Dynamic", CatVal.m [("title", FieldVal.s "Foo")]), ("Technical", CatVal.bad)]

/-- A builder that already holds a built document (from `mEx`). -/
def bBuilt : SidecarBuilder := (SidecarBuilder.init.build mEx).1

/-- A valid dict containing a category with an empty field dict. -/
def mEmptyCat : MetadataDict :=
  [("Technical", CatVal.m []), ("Dynamic", CatVal.m [("title", FieldVal.s "Foo")])]

/-! ### Helper lemmas: characters, `pyLower`, UTF-8 round-trip -/

/-- Evaluating `Char.ofNat` at a valid code point gives back that code
point. -/
theorem toNat_ofNat_valid (n : Nat) (h : n.isValidChar) :
    (Char.ofNat n).toNat = n := by
  rw [Char.ofNat, dif_pos h]
  rfl

/-- Lowercasing is idempotent on characters. -/
theorem pyLowerChar_idem (c : Char) : pyLowerChar (pyLowerChar c) = pyLowerChar c := by
  unfold pyLowerChar
  by_cases h : 65 ≤ c.toNat ∧ c.toNat ≤ 90
  · rw [if_pos h, if_neg]
    rw [toNat_ofNat_valid (c.toNat + 32) (Or.inl (by omega))]
    omega
  · rw [if_neg h, if_neg h]

/-- Lowercasing is idempotent on strings. -/
theorem pyLower_idem (s : String) : pyLower (pyLower s) = pyLower s := by
  unfold pyLower
  simp only [List.map_map]
  congr 1
  exact List.map_congr_left (fun c _ => pyLowerChar_idem c)

/-- Decoding a UTF-8-encoded character from the head of a byte sequence
yields that character and continues with the remaining bytes. -/
theorem utf8DecodeAux_encodeChar (c : Char) (bs : List Nat) (fuel : Nat) :
    utf8DecodeAux (fuel + 1) (utf8EncodeChar c ++ bs) =
      (utf8DecodeAux fuel bs).map (fun cs => c :: cs) := by
  have hv : c.toNat < 0xD800 ∨ (0xDFFF < c.toNat ∧ c.toNat < 0x110000) := c.valid
  by_cases h1 : c.toNat < 0x80
  · have henc : utf8EncodeChar c = [c.toNat] := by
      simp only [utf8EncodeChar]
      rw [if_pos h1]
    rw [henc]
    cases bs with
    | nil =>
      show utf8DecodeAux (fuel + 1) [c.toNat] = _
      rw [utf8DecodeAux.eq_4, if_pos h1, Char.ofNat_toNat]
    | cons b bs' =>
      show utf8DecodeAux (fuel + 1) (c.toNat :: b :: bs') = _
      rw [utf8DecodeAux.eq_3, if_pos h1, Char.ofNat_toNat]
  · by_cases h2 : c.toNat < 0x800
    · have henc : utf8EncodeChar c = [0xC0 + c.toNat / 64, 0x80 + c.toNat % 64] := by
        simp only [utf8EncodeChar]
        rw [if_neg h1, if_pos h2]
      rw [henc]
      show utf8DecodeAux (fuel + 1) (_ :: _ :: bs) = _
      rw [utf8DecodeAux.eq_3]
      rw [if_neg (by omega), if_neg (by omega), if_pos (by omega), if_pos (by omega)]
      have harith : (0xC0 + c.toNat / 64 - 0xC0) * 64 + (0x80 + c.toNat % 64 - 0x80)
          = c.toNat := by omega
      rw [harith, Char.ofNat_toNat]
    · by_cases h3 : c.toNat < 0x10000
      · have henc : utf8EncodeChar c
            = [0xE0 + c.toNat / 4096, 0x80 + c.toNat / 64 % 64, 0x80 + c.toNat % 64] := by
          simp only [utf8EncodeChar]
          rw [if_neg h1, if_neg h2, if_pos h3]
        rw [henc]
        show utf8DecodeAux (fuel + 1) (_ :: _ :: _ :: bs) = _
        rw [utf8DecodeAux.eq_3]
        rw [if_neg (by omega), if_neg (by omega), if_neg (by omega), if_pos (by omega)]
        change ite _ _ _ = _
        rw [if_pos (show (0x80 ≤ 0x80 + c.toNat / 64 % 64 ∧ 0x80 + c.toNat / 64 % 64 < 0xC0)
              ∧ 0x80 ≤ 0x80 + c.toNat % 64 ∧ 0x80 + c.toNat % 64 < 0xC0 by omega)]
        change ite _ _ _ = _
        rw [if_neg (by omega)]
        have harith : (0xE0 + c.toNat / 4096 - 0xE0) * 4096
            + (0x80 + c.toNat / 64 % 64 - 0x80) * 64 + (0x80 + c.toNat % 64 - 0x80)
            = c.toNat := by omega
        rw [harith, Char.ofNat_toNat]
      · have henc : utf8EncodeChar c
            = [0xF0 + c.toNat / 262144, 0x80 + c.toNat / 4096 % 64,
               0x80 + c.toNat / 64 % 64, 0x80 + c.toNat % 64] := by
          simp only [utf8EncodeChar]
          rw [if_neg h1, if_neg h2, if_neg h3]
        rw [henc]
        show utf8DecodeAux (fuel + 1) (_ :: _ :: _ :: _ :: bs) = _
        rw [utf8DecodeAux.eq_3]
        rw [if_neg (by omega), if_neg (by omega), if_neg (by omega),
          if_neg (by omega), if_pos (by omega)]
        change ite _ _ _ = _
        rw [if_pos (show ((0x80 ≤ 0x80 + c.toNat / 4096 % 64 ∧ 0x80 + c.toNat / 4096 % 64 < 0xC0)
              ∧ 0x80 ≤ 0x80 + c.toNat / 64 % 64 ∧ 0x80 + c.toNat / 64 % 64 < 0xC0)
              ∧ 0x80 ≤ 0x80 + c.toNat % 64 ∧ 0x80 + c.toNat % 64 < 0xC0 by omega)]
        change ite _ _ _ = _
        rw [if_neg (by omega)]
        have harith : (0xF0 + c.toNat / 262144 - 0xF0) * 262144
            + (0x80 + c.toNat / 4096 % 64 - 0x80) * 4096
            + (0x80 + c.toNat / 64 % 64 - 0x80) * 64 + (0x80 + c.toNat % 64 - 0x80)
            = c.toNat := by omega
        rw [harith, Char.ofNat_toNat]

/-- Every character encodes to at least one byte. -/
theorem one_le_length_utf8EncodeChar (c : Char) :
    1 ≤ (utf8EncodeChar c).length := by
  simp only [utf8EncodeChar]
  split
  · simp
  · split
    · simp
    · split <;> simp

/-- The byte count of an encoded string bounds its character count. -/
theorem length_le_length_utf8Encode (cs : List Char) :
    cs.length ≤ (utf8Encode cs).length := by
  induction cs with
  | nil => simp [utf8Encode]
  | cons c cs ih =>
    have he : utf8Encode (c :: cs) = utf8EncodeChar c ++ utf8Encode cs := by
      simp [utf8Encode]
    rw [he, List.length_append, List.length_cons]
    have := one_le_length_utf8EncodeChar c
    omega

/-- With enough budget, decoding inverts encoding. -/
theorem utf8DecodeAux_utf8Encode (cs : List Char) :
    ∀ fuel, cs.length ≤ fuel → utf8DecodeAux fuel (utf8Encode cs) = some cs := by
  induction cs with
  | nil => intro fuel _; cases fuel <;> rfl
  | cons c cs ih =>
    intro fuel hf
    match fuel, hf with
    | fuel + 1, hf =>
      have he : utf8Encode (c :: cs) = utf8EncodeChar c ++ utf8Encode cs := by
        simp [utf8Encode]
      rw [he, utf8DecodeAux_encodeChar, ih fuel (by simpa using Nat.lt_succ_iff.mp hf)]
      rfl

/-- UTF-8 decoding inverts UTF-8 encoding. -/
theorem utf8Decode_utf8Encode (cs : List Char) :
    utf8Decode (utf8Encode cs) = some cs := by
  unfold utf8Decode
  exact utf8DecodeAux_utf8Encode cs _ (length_le_length_utf8Encode cs)

/-! ### Helper lemmas: validation and tree construction -/

/-- Validation succeeds when every top-level key is allowed. -/
theorem check_metadata_dict_ok (m : MetadataDict)
    (h : ∀ p ∈ m, p.1 ∈ ALLOWED_NODES) : check_metadata_dict m = .ok () := by
  induction m with
  | nil => rfl
  | cons p rest ih =>
    obtain ⟨k, v⟩ := p
    show check_metadata_dict ((k, v) :: rest) = .ok ()
    simp only [check_metadata_dict]
    rw [if_pos (h (k, v) (List.mem_cons_self _ _))]
    exact ih (fun q hq => h q (List.mem_cons_of_mem _ hq))

/-- Validation fails with a `schemaViolation` naming the first key (in
iteration order) outside `ALLOWED_NODES`. -/
theorem check_metadata_dict_first_error (m : MetadataDict) (k : String)
    (h : (m.map Prod.fst).find? (fun x => !ALLOWED_NODES.contains x) = some k) :
    check_metadata_dict m = .error (.schemaViolation k) := by
  induction m with
  | nil => simp at h
  | cons p rest ih =>
    obtain ⟨k0, v0⟩ := p
    by_cases hk : k0 ∈ ALLOWED_NODES
    · rw [List.map_cons, List.find?_cons_of_neg _ (by simp [hk])] at h
      show check_metadata_dict ((k0, v0) :: rest) = _
      simp only [check_metadata_dict]
      rw [if_pos hk]
      exact ih h
    · rw [List.map_cons, List.find?_cons_of_pos _ (by simp [hk])] at h
      have hke : k0 = k := Option.some.inj h
      show check_metadata_dict ((k0, v0) :: rest) = _
      simp only [check_metadata_dict]
      rw [if_neg hk, hke]

/-- A well-shaped category dict has only string field values. -/
theorem wfCat_fields {fields : List (String × FieldVal)}
    (h : wfCat (CatVal.m fields) = true) :
    ∀ q ∈ fields, ∃ v, q.2 = FieldVal.s v := by
  intro q hq
  simp only [wfCat, List.all_eq_true] at h
  have hmatch := h q hq
  cases hv : q.2 with
  | s v => exact ⟨v, rfl⟩
  | bad => rw [hv] at hmatch; simp at hmatch

/-- On string-valued fields, the inner loop succeeds and produces the
expected field elements (in order). -/
theorem buildFields_ok (top : String) (fields : List (String × FieldVal))
    (h : ∀ q ∈ fields, ∃ v, q.2 = FieldVal.s v) :
    buildFields top fields = .ok (fields.flatMap (fieldElemsOf top)) := by
  induction fields with
  | nil => rfl
  | cons q rest ih =>
    obtain ⟨sub, val⟩ := q
    obtain ⟨v, hv⟩ := h (sub, val) (List.mem_cons_self _ _)
    rcases hv
    show buildFields top ((sub, FieldVal.s v) :: rest) = _
    simp only [buildFields]
    rw [ih (fun q hq => h q (List.mem_cons_of_mem _ hq))]
    rfl

/-- On a well-shaped category value, the outer loop body succeeds and
produces the expected category element. -/
theorem buildCategory_ok (top : String) (cv : CatVal) (h : wfCat cv = true) :
    buildCategory top cv
      = .ok (XElem.mk ⟨some mhsURI, top⟩ [] [] none (catChildren top cv)) := by
  cases cv with
  | bad => simp [wfCat] at h
  | m fields =>
    simp only [buildCategory]
    rw [buildFields_ok top fields (wfCat_fields h)]
    rfl

/-- On a well-shaped dict, the outer loop succeeds and produces exactly
one category element per entry, in iteration order. -/
theorem buildCategories_ok (m : MetadataDict) (h : ∀ p ∈ m, wfCat p.2 = true) :
    buildCategories m = .ok (m.map catElemOf) := by
  induction m with
  | nil => rfl
  | cons p rest ih =>
    obtain ⟨top, cv⟩ := p
    show buildCategories ((top, cv) :: rest) = _
    simp only [buildCategories]
    rw [buildCategory_ok top cv (h (top, cv) (List.mem_cons_self _ _)),
      ih (fun q hq => h q (List.mem_cons_of_mem _ hq))]
    rfl

/-- On a valid, well-shaped dict, `build` succeeds and replaces the held
document by the expected tree. -/
theorem build_ok (b : SidecarBuilder) (m : MetadataDict)
    (hkeys : validKeys m = true) (hwf : wfDict m = true) :
    b.build m = (⟨some ⟨sidecarRoot (m.map catElemOf)⟩⟩, .ok ()) := by
  have h1 : check_metadata_dict m = .ok () := by
    apply check_metadata_dict_ok
    intro p hp
    have hc := (List.all_eq_true.mp hkeys) p hp
    simpa [List.contains] using hc
  have h2 : buildCategories m = .ok (m.map catElemOf) :=
    buildCategories_ok m (fun p hp => (List.all_eq_true.mp hwf) p hp)
  simp only [SidecarBuilder.build, h1, h2]

/-- For the `Technical` category the loop body appends exactly one
`mh`-qualified element per field. -/
theorem fieldElemsOf_technical (q : String × FieldVal) :
    fieldElemsOf "Technical" q
      = [XElem.mk ⟨some mhURI, q.1⟩ [] [] (fieldTextOf q.2) []] := rfl

/-- For the `Dynamic` category the loop body appends exactly one
unqualified element per field. -/
theorem fieldElemsOf_dynamic (q : String × FieldVal) :
    fieldElemsOf "Dynamic" q
      = [XElem.mk ⟨none, q.1⟩ [] [] (fieldTextOf q.2) []] := rfl

/-- Flat-mapping a singleton-valued function is mapping. -/
theorem flatMap_singleton_eq_map {α β : Type} (g : α → β) (l : List α) :
    (l.flatMap fun a => [g a]) = l.map g := by
  induction l with
  | nil => rfl
  | cons a l ih => simp [List.flatMap_cons, ih]

/-- The children of a built `Technical` category element, one per field. -/
theorem catChildren_technical (fields : List (String × FieldVal)) :
    catChildren "Technical" (CatVal.m fields)
      = fields.map (fun q => XElem.mk ⟨some mhURI, q.1⟩ [] [] (fieldTextOf q.2) []) := by
  show fields.flatMap (fieldElemsOf "Technical") = _
  rw [show fieldElemsOf "Technical"
      = fun q => [XElem.mk ⟨some mhURI, q.1⟩ [] [] (fieldTextOf q.2) []] from
    funext fieldElemsOf_technical]
  exact flatMap_singleton_eq_map _ fields

/-- The children of a built `Dynamic` category element, one per field. -/
theorem catChildren_dynamic (fields : List (String × FieldVal)) :
    catChildren "Dynamic" (CatVal.m fields)
      = fields.map (fun q => XElem.mk ⟨none, q.1⟩ [] [] (fieldTextOf q.2) []) := by
  show fields.flatMap (fieldElemsOf "Dynamic") = _
  rw [show fieldElemsOf "Dynamic"
      = fun q => [XElem.mk ⟨none, q.1⟩ [] [] (fieldTextOf q.2) []] from
    funext fieldElemsOf_dynamic]
  exact flatMap_singleton_eq_map _ fields

/-! ### Helper lemmas: serialization -/

/-- With a held document, `to_bytes` returns the UTF-8 bytes of the
serialized text. -/
theorem to_bytes_of_sidecar (b : SidecarBuilder) (t : ElementTree) (pretty : Bool)
    (h : b.sidecar = some t) :
    b.to_bytes pretty = .ok (utf8Encode (tostringText t pretty).data) := by
  simp only [SidecarBuilder.to_bytes, h]

/-- With a held document, `to_string` returns the serialized text (its
internal encode-then-decode round-trip is lossless). -/
theorem to_string_of_sidecar (b : SidecarBuilder) (t : ElementTree) (pretty : Bool)
    (h : b.sidecar = some t) :
    b.to_string pretty = .ok (tostringText t pretty) := by
  simp only [SidecarBuilder.to_string, h, utf8Decode_utf8Encode]

/-- The serialized text starts with the single-quoted XML declaration
lxml writes, followed by the rest of the document. -/
theorem tostringText_decl (t : ElementTree) (pretty : Bool) :
    tostringText t pretty
      = "<?xml version='1.0' encoding='UTF-8'?>\n"
        ++ (renderElem t.root.nsmap pretty 0 t.root
            ++ (if pretty then "\n" else "")) := by
  show xmlDeclFor XML_ENCODING ++ _ ++ _ = _
  rw [String.append_assoc]
  rfl

/-- A `build` call either raises (leaving the builder untouched: the
assignment to `self.sidecar` is the method's final statement) or installs
the newly constructed tree. -/
theorem build_cases (b : SidecarBuilder) (m : MetadataDict) :
    (∃ e, b.build m = (b, .error e)) ∨
    (∃ children, check_metadata_dict m = .ok () ∧
      buildCategories m = .ok children ∧
      b.build m = (⟨some ⟨sidecarRoot children⟩⟩, .ok ())) := by
  unfold SidecarBuilder.build
  cases hc : check_metadata_dict m with
  | error e => exact .inl ⟨e, rfl⟩
  | ok u =>
    cases u
    cases hbc : buildCategories m with
    | error e => exact .inl ⟨e, rfl⟩
    | ok children => exact .inr ⟨children, rfl, rfl, rfl⟩

/-- A successful `build` leaves some document in the builder. -/
theorem build_succeeds_sidecar (b : SidecarBuilder) (m : MetadataDict)
    (h : (b.build m).2 = .ok ()) :
    ∃ t, (b.build m).1.sidecar = some t := by
  rcases build_cases b m with ⟨e, hbe⟩ | ⟨children, _, _, hb⟩
  · rw [hbe] at h
    simp at h
  · rw [hb]
    exact ⟨_, rfl⟩

/-- Every key of a `validKeys` dict is `"Dynamic"` or `"Technical"`. -/
theorem validKeys_top {m : MetadataDict} (hkeys : validKeys m = true)
    {p : String × CatVal} (hp : p ∈ m) :
    p.1 = "Dynamic" ∨ p.1 = "Technical" := by
  have hc := (List.all_eq_true.mp hkeys) p hp
  simpa [List.contains, ALLOWED_NODES] using hc

/-- The md5 candidate-key loop returns the value of the first present key
and `""` when none is present. -/
theorem try_to_find_md5_go_eq (d : List (String × String)) (ks : List String) :
    try_to_find_md5_go d ks
      = ((ks.find? (fun k => (lookupDict d k).isSome)).bind (lookupDict d)).getD "" := by
  induction ks with
  | nil => rfl
  | cons k ks ih =>
    cases hl : lookupDict d k with
    | some v =>
      rw [List.find?_cons_of_pos _ (by simp [hl])]
      show try_to_find_md5_go d (k :: ks) = _
      simp only [try_to_find_md5_go, hl]
      simp [hl]
    | none =>
      rw [List.find?_cons_of_neg _ (by simp [hl])]
      show try_to_find_md5_go d (k :: ks) = _
      simp only [try_to_find_md5_go, hl]
      exact ih

/-! ### The claims -/

/-- C2: for every metadata mapping containing a top-level key outside
`{Dynamic, Technical}`, `build` fails with a `SchemaViolation` naming the
first offending key (the membership check runs before any tree node is
created), and the builder is left exactly as it was — in particular it
holds no document yielding different categories than before the call. -/
theorem claim_C2_schema_violation (b : SidecarBuilder) (m : MetadataDict)
    (k : String)
    (h : (m.map Prod.fst).find? (fun x => !ALLOWED_NODES.contains x) = some k) :
    b.build m = (b, .error (.schemaViolation k)) := by
  have hc := check_metadata_dict_first_error m k h
  simp only [SidecarBuilder.build, hc]

/-- C5: the checksum lookup returns the value of the first key present in
the ordered candidate list `["x-md5sum-meta", "md5sum", "x-amz-meta-md5sum"]`
(and `""` when none is present); a record containing only
`"md5sum": "7ef01fd710fec9a175d28c4a31dc49a2"` yields exactly that value,
and a record with none of the three keys yields `""`. -/
theorem claim_C5_md5_fallback :
    (∀ d : List (String × String),
      try_to_find_md5 d
        = ((POSSIBLE_KEYS.find? (fun k => (lookupDict d k).isSome)).bind
            (lookupDict d)).getD "")
    ∧ try_to_find_md5 [("md5sum", "7ef01fd710fec9a175d28c4a31dc49a2")]
        = "7ef01fd710fec9a175d28c4a31dc49a2"
    ∧ try_to_find_md5 [("object-size", "12")] = "" := by
  refine ⟨fun d => try_to_find_md5_go_eq d POSSIBLE_KEYS, ?_, ?_⟩ <;> rfl

/-- C7: on a freshly constructed builder (no successful `build` has
occurred, `self.sidecar` is `None`), both serialization operations fail
immediately with the usage error, for either value of the pretty flag. -/
theorem claim_C7_serialize_before_build (pretty : Bool) :
    SidecarBuilder.init.to_bytes pretty = .error .usageError
    ∧ SidecarBuilder.init.to_string pretty = .error .usageError :=
  ⟨rfl, rfl⟩

/-- C8: whenever `build` fails — at validation or partway through tree
construction — the builder's held document is exactly what it was before
the call, because the new tree is assigned to the instance only after
every category and field element has been appended. -/
theorem claim_C8_no_partial_state (b : SidecarBuilder) (m : MetadataDict)
    (e : PyError) (h : (b.build m).2 = .error e) :
    (b.build m).1 = b := by
  rcases build_cases b m with ⟨e', hbe⟩ | ⟨children, _, _, hb⟩
  · rw [hbe]
  · rw [hb] at h
    simp at h

/-- C9: the event-field lookup lowercases the requested name before any
use, so `get_from_event event name` equals
`get_from_event event (name.lower())` for every event and name; recognized
names are accepted and unrecognized names rejected regardless of case. -/
theorem claim_C9_case_insensitive (event : S3Event) (name : String) :
    get_from_event event name = get_from_event event (pyLower name) := by
  simp only [get_from_event, pyLower_idem]

/-- C4: for every builder holding a successfully built document and every
value of the pretty flag, the bytes returned by `to_bytes`, decoded as
UTF-8, are exactly the text returned by `to_string`. -/
theorem claim_C4_bytes_decode_to_text (b : SidecarBuilder) (m : MetadataDict)
    (pretty : Bool) (h : (b.build m).2 = .ok ()) :
    ∃ bs s, (b.build m).1.to_bytes pretty = .ok bs
      ∧ (b.build m).1.to_string pretty = .ok s
      ∧ utf8Decode bs = some s.data := by
  obtain ⟨t, ht⟩ := build_succeeds_sidecar b m h
  exact ⟨_, _, to_bytes_of_sidecar _ t pretty ht,
    to_string_of_sidecar _ t pretty ht, utf8Decode_utf8Encode _⟩

/-- C3 (amended): for every valid, well-shaped metadata mapping, `build`
succeeds and the held document's single root element is `Sidecar`
qualified under the `mhs` namespace, carries `version="19.4"`, declares
both the `mhs` and `mh` namespace prefixes whose URIs embed that same
version string, and the serialized output starts with the XML declaration
`<?xml version='1.0' encoding='UTF-8'?>` (single-quoted, as lxml writes
it — not double-quoted). -/
theorem claim_C3_document_shape (b : SidecarBuilder) (m : MetadataDict)
    (hkeys : validKeys m = true) (hwf : wfDict m = true) :
    ∃ root, (b.build m).2 = .ok ()
      ∧ (b.build m).1.sidecar = some ⟨root⟩
      ∧ root.tag = ⟨some mhsURI, "Sidecar"⟩
      ∧ root.attrs = [("version", MHS_VERSION)]
      ∧ root.nsmap = [("mhs", mhsURI), ("mh", mhURI)]
      ∧ (∃ u w, mhsURI = u ++ MHS_VERSION ++ w)
      ∧ (∃ u w, mhURI = u ++ MHS_VERSION ++ w)
      ∧ ∀ pretty, ∃ rest, (b.build m).1.to_string pretty
          = .ok ("<?xml version='1.0' encoding='UTF-8'?>\n" ++ rest) := by
  have hb := build_ok b m hkeys hwf
  refine ⟨sidecarRoot (m.map catElemOf), by rw [hb], by rw [hb], rfl, rfl, rfl,
    ⟨"https://zeticon.mediahaven.com/metadata/", "/mhs/", rfl⟩,
    ⟨"https://zeticon.mediahaven.com/metadata/", "/mh/", rfl⟩, ?_⟩
  intro pretty
  rw [hb]
  refine ⟨renderElem (sidecarRoot (m.map catElemOf)).nsmap pretty 0
    (sidecarRoot (m.map catElemOf)) ++ (if pretty then "\n" else ""), ?_⟩
  show SidecarBuilder.to_string ⟨some ⟨sidecarRoot (m.map catElemOf)⟩⟩ pretty = _
  rw [to_string_of_sidecar _ _ pretty rfl, tostringText_decl]

/-- C1: for every metadata mapping with recognized keys and string-valued
fields, `build` yields a document in which each field under `Technical`
becomes exactly one grandchild qualified under the `mh` namespace with the
field's value as text, each field under `Dynamic` becomes exactly one
unqualified grandchild with the field's value as text, and each grandchild
sits under its `mhs`-qualified category element. -/
theorem claim_C1_field_namespacing (b : SidecarBuilder) (m : MetadataDict)
    (hkeys : validKeys m = true) (hwf : wfDict m = true) :
    ∃ root, (b.build m).2 = .ok ()
      ∧ (b.build m).1.sidecar = some ⟨root⟩
      ∧ root.children.length = m.length
      ∧ ∀ (i : Nat) (top : String) (fs : List (String × FieldVal)),
          m[i]? = some (top, CatVal.m fs) →
          ∃ cat : XElem, root.children[i]? = some cat
            ∧ cat.tag = ⟨some mhsURI, top⟩
            ∧ cat.children.length = fs.length
            ∧ ∀ (j : Nat) (sub v : String), fs[j]? = some (sub, FieldVal.s v) →
                (top = "Technical" →
                  cat.children[j]?
                    = some (XElem.mk ⟨some mhURI, sub⟩ [] [] (some v) []))
                ∧ (top = "Dynamic" →
                  cat.children[j]?
                    = some (XElem.mk ⟨none, sub⟩ [] [] (some v) [])) := by
  have hb := build_ok b m hkeys hwf
  refine ⟨sidecarRoot (m.map catElemOf), by rw [hb], by rw [hb], ?_, ?_⟩
  · show (m.map catElemOf).length = m.length
    exact List.length_map m catElemOf
  · intro i top fs hi
    have hmem : (top, CatVal.m fs) ∈ m := List.getElem?_mem hi
    have htop := validKeys_top hkeys hmem
    refine ⟨catElemOf (top, CatVal.m fs), ?_, rfl, ?_, ?_⟩
    · show (m.map catElemOf)[i]? = _
      rw [List.getElem?_map, hi]
      rfl
    · show (catChildren top (CatVal.m fs)).length = fs.length
      rcases htop with h | h <;> subst h
      · rw [catChildren_dynamic, List.length_map]
      · rw [catChildren_technical, List.length_map]
    · intro j sub v hj
      constructor
      · intro he
        subst he
        show (catChildren "Technical" (CatVal.m fs))[j]? = _
        rw [catChildren_technical, List.getElem?_map, hj]
        rfl
      · intro he
        subst he
        show (catChildren "Dynamic" (CatVal.m fs))[j]? = _
        rw [catChildren_dynamic, List.getElem?_map, hj]
        rfl

/-- C6: category elements appear in the mapping's iteration order, and
within each category the field elements appear in that category's
iteration order. -/
theorem claim_C6_iteration_order (b : SidecarBuilder) (m : MetadataDict)
    (hkeys : validKeys m = true) (hwf : wfDict m = true) :
    ∃ root, (b.build m).2 = .ok ()
      ∧ (b.build m).1.sidecar = some ⟨root⟩
      ∧ root.children.map (fun e => e.tag.localName) = m.map (fun p => p.1)
      ∧ ∀ (i : Nat) (top : String) (fs : List (String × FieldVal)),
          m[i]? = some (top, CatVal.m fs) →
          ∃ cat : XElem, root.children[i]? = some cat
            ∧ cat.children.map (fun e => e.tag.localName)
                = fs.map (fun q => q.1) := by
  have hb := build_ok b m hkeys hwf
  refine ⟨sidecarRoot (m.map catElemOf), by rw [hb], by rw [hb], ?_, ?_⟩
  · show (m.map catElemOf).map (fun e => e.tag.localName) = _
    rw [List.map_map]
    rfl
  · intro i top fs hi
    have hmem : (top, CatVal.m fs) ∈ m := List.getElem?_mem hi
    have htop := validKeys_top hkeys hmem
    refine ⟨catElemOf (top, CatVal.m fs), ?_, ?_⟩
    · show (m.map catElemOf)[i]? = _
      rw [List.getElem?_map, hi]
      rfl
    · show (catChildren top (CatVal.m fs)).map (fun e => e.tag.localName) = _
      rcases htop with h | h <;> subst h
      · rw [catChildren_dynamic, List.map_map]
        rfl
      · rw [catChildren_technical, List.map_map]
        rfl

/-- C10: a recognized category mapped to an empty field dict builds
successfully into an `mhs`-qualified category element with zero child
elements. -/
theorem claim_C10_empty_category (b : SidecarBuilder) (m : MetadataDict)
    (hkeys : validKeys m = true) (hwf : wfDict m = true)
    (i : Nat) (top : String) (hi : m[i]? = some (top, CatVal.m [])) :
    ∃ (root cat : XElem), (b.build m).2 = .ok ()
      ∧ (b.build m).1.sidecar = some ⟨root⟩
      ∧ root.children[i]? = some cat
      ∧ cat.tag = ⟨some mhsURI, top⟩
      ∧ cat.children = [] := by
  have hb := build_ok b m hkeys hwf
  refine ⟨sidecarRoot (m.map catElemOf), catElemOf (top, CatVal.m []),
    by rw [hb], by rw [hb], ?_, rfl, rfl⟩
  show (m.map catElemOf)[i]? = _
  rw [List.getElem?_map, hi]
  rfl

set_option maxRecDepth 100000 in
/-- C3 counterexample: the claim's double-quoted declaration
`<?xml version="1.0" encoding="UTF-8"?>` occurs nowhere in the serialized
output of a built document — lxml writes the declaration with single
quotes. -/
theorem claim_C3_counterexample :
    ∃ s : String, (SidecarBuilder.init.build []).1.to_string false = Except.ok s
      ∧ ¬ (("<?xml version=\"1.0\" encoding=\"UTF-8\"?>").data <:+: s.data) := by
  refine ⟨_, to_string_of_sidecar _ ⟨sidecarRoot []⟩ false rfl, ?_⟩
  decide

/-- C1 witness: the theorem applied to the two-category example dict. -/
theorem claim_C1_witness :
    validKeys mEx = true ∧ wfDict mEx = true
    ∧ (∃ root, (SidecarBuilder.init.build mEx).2 = .ok ()
      ∧ (SidecarBuilder.init.build mEx).1.sidecar = some ⟨root⟩
      ∧ root.children.length = mEx.length
      ∧ ∀ (i : Nat) (top : String) (fs : List (String × FieldVal)),
          mEx[i]? = some (top, CatVal.m fs) →
          ∃ cat : XElem, root.children[i]? = some cat
            ∧ cat.tag = ⟨some mhsURI, top⟩
            ∧ cat.children.length = fs.length
            ∧ ∀ (j : Nat) (sub v : String), fs[j]? = some (sub, FieldVal.s v) →
                (top = "Technical" →
                  cat.children[j]?
                    = some (XElem.mk ⟨some mhURI, sub⟩ [] [] (some v) []))
                ∧ (top = "Dynamic" →
                  cat.children[j]?
                    = some (XElem.mk ⟨none, sub⟩ [] [] (some v) []))) :=
  ⟨rfl, rfl, claim_C1_field_namespacing SidecarBuilder.init mEx rfl rfl⟩

/-- C2 witness: the theorem applied to a dict with the unrecognized key
`"Descriptive"`. -/
theorem claim_C2_witness :
    (mBadKey.map Prod.fst).find? (fun x => !ALLOWED_NODES.contains x)
      = some "Descriptive"
    ∧ SidecarBuilder.init.build mBadKey
      = (SidecarBuilder.init, .error (.schemaViolation "Descriptive")) :=
  ⟨rfl, claim_C2_schema_violation SidecarBuilder.init mBadKey "Descriptive" rfl⟩

/-- C3 witness: the amended theorem applied to the example dict. -/
theorem claim_C3_witness :
    validKeys mEx = true ∧ wfDict mEx = true
    ∧ (∃ root, (SidecarBuilder.init.build mEx).2 = .ok ()
      ∧ (SidecarBuilder.init.build mEx).1.sidecar = some ⟨root⟩
      ∧ root.tag = ⟨some mhsURI, "Sidecar"⟩
      ∧ root.attrs = [("version", MHS_VERSION)]
      ∧ root.nsmap = [("mhs", mhsURI), ("mh", mhURI)]
      ∧ (∃ u w, mhsURI = u ++ MHS_VERSION ++ w)
      ∧ (∃ u w, mhURI = u ++ MHS_VERSION ++ w)
      ∧ ∀ pretty, ∃ rest, (SidecarBuilder.init.build mEx).1.to_string pretty
          = .ok ("<?xml version='1.0' encoding='UTF-8'?>\n" ++ rest)) :=
  ⟨rfl, rfl, claim_C3_document_shape SidecarBuilder.init mEx rfl rfl⟩

/-- C4 witness: the theorem applied to the example dict with
`pretty=False`. -/
theorem claim_C4_witness :
    (SidecarBuilder.init.build mEx).2 = .ok ()
    ∧ (∃ bs s, (SidecarBuilder.init.build mEx).1.to_bytes false = .ok bs
        ∧ (SidecarBuilder.init.build mEx).1.to_string false = .ok s
        ∧ utf8Decode bs = some s.data) :=
  ⟨rfl, claim_C4_bytes_decode_to_text SidecarBuilder.init mEx false rfl⟩

/-- C6 witness: the theorem applied to the example dict. -/
theorem claim_C6_witness :
    validKeys mEx = true ∧ wfDict mEx = true
    ∧ (∃ root, (SidecarBuilder.init.build mEx).2 = .ok ()
      ∧ (SidecarBuilder.init.build mEx).1.sidecar = some ⟨root⟩
      ∧ root.children.map (fun e => e.tag.localName) = mEx.map (fun p => p.1)
      ∧ ∀ (i : Nat) (top : String) (fs : List (String × FieldVal)),
          mEx[i]? = some (top, CatVal.m fs) →
          ∃ cat : XElem, root.children[i]? = some cat
            ∧ cat.children.map (fun e => e.tag.localName)
                = fs.map (fun q => q.1)) :=
  ⟨rfl, rfl, claim_C6_iteration_order SidecarBuilder.init mEx rfl rfl⟩

/-- C8 witness: the theorem applied to a builder that already holds a
document, on a dict whose second category value is malformed — the build
fails partway through construction and the held document is untouched. -/
theorem claim_C8_witness :
    (bBuilt.build mMal).2 = .error .malformedMetadata
    ∧ (bBuilt.build mMal).1 = bBuilt :=
  ⟨rfl, claim_C8_no_partial_state bBuilt mMal .malformedMetadata rfl⟩

/-- C10 witness: the theorem applied to a dict whose first category has an
empty field dict. -/
theorem claim_C10_witness :
    validKeys mEmptyCat = true ∧ wfDict mEmptyCat = true
    ∧ mEmptyCat[0]? = some ("Technical", CatVal.m [])
    ∧ (∃ (root cat : XElem), (SidecarBuilder.init.build mEmptyCat).2 = .ok ()
        ∧ (SidecarBuilder.init.build mEmptyCat).1.sidecar = some ⟨root⟩
        ∧ root.children[0]? = some cat
        ∧ cat.tag = ⟨some mhsURI, "Technical"⟩
        ∧ cat.children = []) :=
  ⟨rfl, rfl, rfl,
    claim_C10_empty_category SidecarBuilder.init mEmptyCat rfl rfl 0 "Technical" rfl⟩

end NanoBD
